import Mathlib

/-!
Verification of the purr reactive update pipeline.

Shallow embedding of the components in `src/purr/reactive/` and
`src/purr/content/differ.py`: the AST differ, the edit-region detector,
the reactive mapper, the dependency graph, the SSE broadcaster and the
content-change handler of the pipeline coordinator.

Python dictionaries are modelled as association lists (newest binding
first, lookup finds the newest), Python sets and frozensets as `Finset`,
exceptions as `Except`/`Option`, and the external collaborators
(Patitas parser, Kida engine, Bengal site) as explicit parameters.
-/

namespace Purr

/-! ## Patitas AST model (external schema consumed by the differ)

Patitas nodes are frozen dataclasses compared by `==` (structural
equality); `type(x) is type(y)` compares the runtime class, modelled
by `nodeType`.  `blockQuote` is a node type whose value carries nested
block children. -/

inductive PNode where
  | heading (level : Nat) (text : String)
  | paragraph (text : String)
  | fencedCode (info : String) (content : String)
  | thematicBreak
  | blockQuote (children : List PNode)
  | htmlBlock (content : String)

mutual

/-- Structural equality on nodes (`==` on frozen Patitas dataclasses). -/
def PNode.beq : PNode → PNode → Bool
  | .heading l t, .heading m u => l == m && t == u
  | .paragraph t, .paragraph u => t == u
  | .fencedCode i c, .fencedCode j d => i == j && c == d
  | .thematicBreak, .thematicBreak => true
  | .blockQuote cs, .blockQuote ds => PNode.beqList cs ds
  | .htmlBlock c, .htmlBlock d => c == d
  | _, _ => false

/-- Structural equality on child tuples. -/
def PNode.beqList : List PNode → List PNode → Bool
  | [], [] => true
  | a :: as, b :: bs => PNode.beq a b && PNode.beqList as bs
  | _, _ => false

end

mutual

theorem PNode.beq_iff : ∀ a b : PNode, PNode.beq a b = true ↔ a = b
  | .heading l t, .heading m u => by
    simp [PNode.beq]
  | .paragraph t, .paragraph u => by simp [PNode.beq]
  | .fencedCode i c, .fencedCode j d => by simp [PNode.beq]
  | .thematicBreak, .thematicBreak => by simp [PNode.beq]
  | .blockQuote cs, .blockQuote ds => by
    simp [PNode.beq, PNode.beqList_iff cs ds]
  | .htmlBlock c, .htmlBlock d => by simp [PNode.beq]
  | .heading _ _, .paragraph _ => by simp [PNode.beq]
  | .heading _ _, .fencedCode _ _ => by simp [PNode.beq]
  | .heading _ _, .thematicBreak => by simp [PNode.beq]
  | .heading _ _, .blockQuote _ => by simp [PNode.beq]
  | .heading _ _, .htmlBlock _ => by simp [PNode.beq]
  | .paragraph _, .heading _ _ => by simp [PNode.beq]
  | .paragraph _, .fencedCode _ _ => by simp [PNode.beq]
  | .paragraph _, .thematicBreak => by simp [PNode.beq]
  | .paragraph _, .blockQuote _ => by simp [PNode.beq]
  | .paragraph _, .htmlBlock _ => by simp [PNode.beq]
  | .fencedCode _ _, .heading _ _ => by simp [PNode.beq]
  | .fencedCode _ _, .paragraph _ => by simp [PNode.beq]
  | .fencedCode _ _, .thematicBreak => by simp [PNode.beq]
  | .fencedCode _ _, .blockQuote _ => by simp [PNode.beq]
  | .fencedCode _ _, .htmlBlock _ => by simp [PNode.beq]
  | .thematicBreak, .heading _ _ => by simp [PNode.beq]
  | .thematicBreak, .paragraph _ => by simp [PNode.beq]
  | .thematicBreak, .fencedCode _ _ => by simp [PNode.beq]
  | .thematicBreak, .blockQuote _ => by simp [PNode.beq]
  | .thematicBreak, .htmlBlock _ => by simp [PNode.beq]
  | .blockQuote _, .heading _ _ => by simp [PNode.beq]
  | .blockQuote _, .paragraph _ => by simp [PNode.beq]
  | .blockQuote _, .fencedCode _ _ => by simp [PNode.beq]
  | .blockQuote _, .thematicBreak => by simp [PNode.beq]
  | .blockQuote _, .htmlBlock _ => by simp [PNode.beq]
  | .htmlBlock _, .heading _ _ => by simp [PNode.beq]
  | .htmlBlock _, .paragraph _ => by simp [PNode.beq]
  | .htmlBlock _, .fencedCode _ _ => by simp [PNode.beq]
  | .htmlBlock _, .thematicBreak => by simp [PNode.beq]
  | .htmlBlock _, .blockQuote _ => by simp [PNode.beq]

theorem PNode.beqList_iff : ∀ as bs : List PNode, PNode.beqList as bs = true ↔ as = bs
  | [], [] => by simp [PNode.beqList]
  | a :: as, b :: bs => by
    simp [PNode.beqList, PNode.beq_iff a b, PNode.beqList_iff as bs]
  | [], _ :: _ => by simp [PNode.beqList]
  | _ :: _, [] => by simp [PNode.beqList]

end

instance : DecidableEq PNode := fun a b =>
  decidable_of_iff (PNode.beq a b = true) (PNode.beq_iff a b)

/-- Runtime class name of a node (`type(node).__name__`). -/
def nodeType : PNode → String
  | .heading _ _ => "Heading"
  | .paragraph _ => "Paragraph"
  | .fencedCode _ _ => "FencedCode"
  | .thematicBreak => "ThematicBreak"
  | .blockQuote _ => "BlockQuote"
  | .htmlBlock _ => "HtmlBlock"

/-- A Patitas `Document`: ordered tuple of block children. -/
structure PDocument where
  children : List PNode
deriving DecidableEq

/-! ## AST differ (`src/purr/content/differ.py`) -/

inductive ChangeKind where
  | added
  | removed
  | modified
deriving DecidableEq

/-- `ASTChange` frozen dataclass from `differ.py`. -/
structure ASTChange where
  kind : ChangeKind
  path : List Nat
  old_node : Option PNode
  new_node : Option PNode
deriving DecidableEq

/-- Body of the `for i in range(max_len)` loop of `_diff_children`:
the changes appended for position `i`. -/
def diffAt (old_children new_children : List PNode) (parent_path : List Nat)
    (i : Nat) : List ASTChange :=
  let path := parent_path ++ [i]
  if old_children.length ≤ i then
    [⟨.added, path, none, new_children[i]?⟩]
  else if new_children.length ≤ i then
    [⟨.removed, path, old_children[i]?, none⟩]
  else if old_children[i]? = new_children[i]? then
    []
  else if old_children[i]?.map nodeType = new_children[i]?.map nodeType then
    [⟨.modified, path, old_children[i]?, new_children[i]?⟩]
  else
    [⟨.removed, path, old_children[i]?, none⟩,
     ⟨.added, path, none, new_children[i]?⟩]

/-- `_diff_children`: walks both child tuples by index over
`range(max(len(old), len(new)))` and appends changes in order. -/
def _diff_children (old_children new_children : List PNode)
    (parent_path : List Nat) : List ASTChange :=
  (List.range (max old_children.length new_children.length)).flatMap
    (diffAt old_children new_children parent_path)

/-- `diff_documents`: positional structural diff of two documents. -/
def diff_documents (old new : PDocument) : List ASTChange :=
  _diff_children old.children new.children []

/-! ## Edit-region detector (`_compute_edit_region` in
`src/purr/reactive/pipeline.py`)

The Python function runs two while loops:

* the forward loop `while start < min_len and old[start] == new[start]`
  computes the length of the longest common prefix of the two strings
  (it stops at the first mismatch or when either string is exhausted) —
  embedded as `prefixScan`;
* the backward loop
  `while old_end >= start and new_end >= start and old[old_end] == new[new_end]`
  walks both strings from their last characters in lockstep and stops at
  the first mismatch or as soon as either index would drop below `start`;
  the number of matched steps is therefore the longest common prefix of
  the *reversed* suffixes `old[start:]` and `new[start:]` — embedded as
  `prefixScan` on those reversed suffixes, with `k` matched steps giving
  final indices `old_end = len(old) - 1 - k`, `new_end = len(new) - 1 - k`.

The returned triple is `(start, old_end + 1, new_end - start + 1)`,
i.e. `(start, len(old) - k, len(new) - start - k)`. -/

/-- Longest common prefix length of two character lists: the value of
`start` after the forward scan loop. -/
def prefixScan : List Char → List Char → Nat
  | a :: as, b :: bs => if a = b then prefixScan as bs + 1 else 0
  | _, _ => 0

/-- `_compute_edit_region(old, new)` on character lists. -/
def _compute_edit_region (old new : List Char) : Nat × Nat × Nat :=
  let start := prefixScan old new
  if start = old.length ∧ start = new.length then
    (start, start, 0)
  else
    let k := prefixScan (old.drop start).reverse (new.drop start).reverse
    (start, old.length - k, new.length - start - k)

/-- `_compute_edit_region` on Python strings. -/
def computeEditRegion (old new : String) : Nat × Nat × Nat :=
  _compute_edit_region old.data new.data

/-! ## Reactive mapper (`src/purr/reactive/mapper.py`) -/

/-- `BlockUpdate` frozen dataclass. -/
structure BlockUpdate where
  permalink : String
  template_name : String
  block_name : String
  context_paths : Finset String
deriving DecidableEq

/-- `CONTENT_CONTEXT_MAP`: Patitas node type name → affected template
context variables. -/
def CONTENT_CONTEXT_MAP : List (String × Finset String) :=
  [("Heading", {"content", "toc"}),
   ("Paragraph", {"content"}),
   ("FencedCode", {"content"}),
   ("IndentedCode", {"content"}),
   ("List", {"content"}),
   ("ListItem", {"content"}),
   ("BlockQuote", {"content"}),
   ("Table", {"content"}),
   ("ThematicBreak", {"content"}),
   ("Directive", {"content"}),
   ("MathBlock", {"content"}),
   ("FootnoteDef", {"content"}),
   ("HtmlBlock", {"content"})]

/-- `FALLBACK_CONTEXT_PATHS`: catch-all for unknown node types. -/
def FALLBACK_CONTEXT_PATHS : Finset String := {"content", "toc", "page"}

/-- `CONTENT_CONTEXT_MAP.get(node_type, FALLBACK_CONTEXT_PATHS)`
(line 121 of `mapper.py`). -/
def contextPathsFor (node_type : String) : Finset String :=
  match CONTENT_CONTEXT_MAP.lookup node_type with
  | some paths => paths
  | none => FALLBACK_CONTEXT_PATHS

/-- `change.new_node or change.old_node`: Python `or` on two optional
node values (nodes are always truthy). -/
def changeNode (change : ASTChange) : Option PNode :=
  match change.new_node with
  | some node => some node
  | none => change.old_node

/-- Step 1 of `map_changes`: `affected_paths.update(paths)` folded over
the changes. -/
def affectedPaths (changes : List ASTChange) : Finset String :=
  changes.foldl
    (fun acc change =>
      match changeNode change with
      | some node => acc ∪ contextPathsFor (nodeType node)
      | none => acc)
    ∅

/-- `ReactiveMapper.map_changes`: AST changes → block updates.
`block_metadata` is the dict block name → frozenset of context paths,
as an association list in iteration order. -/
def map_changes (changes : List ASTChange) (template_name : String)
    (block_metadata : List (String × Finset String)) (permalink : String) :
    List BlockUpdate :=
  if changes.isEmpty then []
  else
    let affected_paths := affectedPaths changes
    if affected_paths = ∅ then []
    else
      block_metadata.filterMap fun entry =>
        let overlap := entry.2 ∩ affected_paths
        if overlap ≠ ∅ then
          some ⟨permalink, template_name, entry.1, overlap⟩
        else
          none

/-! ## Filesystem events (`src/purr/content/watcher.py`) -/

/-- Python's `pat in hay` substring test on character lists. -/
def strContains : List Char → List Char → Bool
  | [], pat => pat.isEmpty
  | c :: t, pat => pat.isPrefixOf (c :: t) || strContains t pat

/-- `name.rfind(".")`: index of the last `.` in a file name, if any. -/
def rfindDot (cs : List Char) : Option Nat :=
  match cs.reverse.findIdx? (· = '.') with
  | some j => some (cs.length - 1 - j)
  | none => none

/-- `pathlib.PurePath.stem`: the final component without its last
suffix; the suffix is `name[i:]` for `i = name.rfind(".")` only when
`0 < i < len(name) - 1`. -/
def pathStem (name : String) : String :=
  match rfindDot name.data with
  | some i => if 0 < i ∧ i < name.data.length - 1 then ⟨name.data.take i⟩ else name
  | none => name

/-- A filesystem path: parent directory and final component
(`path.name`). -/
structure FsPath where
  dir : String
  name : String
deriving DecidableEq

/-- `path.stem`. -/
def FsPath.stem (p : FsPath) : String := pathStem p.name

inductive FileKind where
  | created
  | modified
  | deleted
deriving DecidableEq

inductive ChangeCategory where
  | content
  | template
  | config
  | asset
  | route
deriving DecidableEq

/-- `ChangeEvent` frozen dataclass from `watcher.py`. -/
structure ChangeEvent where
  path : FsPath
  kind : FileKind
  category : ChangeCategory
deriving DecidableEq

/-! ## Dependency graph (`src/purr/reactive/graph.py`)

The Kida environment is a black box (§6 of the spec): per template it
either yields the block-metadata map (`get_template` +
`block_metadata()` + the `depends_on` extraction loop, modelled as one
atomic result) or raises (`Except.error`).  `extendsChildren` models
the parent → children map that `_build_extends_map` computes by
scanning site pages and loader templates through the environment. -/

structure KidaEnv where
  blockMetadata : String → Except Unit (List (String × Finset String))
  extendsChildren : List (String × Finset String)

/-- Mutable state of `DependencyGraph`: the lazily resolved engine
(`kida_env`, `None` before freeze), `_block_meta_cache`, and
`_extends_map` (`None` until lazily built). -/
structure GraphState where
  env : Option KidaEnv
  blockMetaCache : List (String × List (String × Finset String))
  extendsMap : Option (List (String × Finset String))

/-- `block_deps_for_template`: cached lookup, `{}` without caching when
the engine is not ready (`env is None`), `{}` *with* caching when the
engine raises (`except Exception: pass` falls through to
`self._block_meta_cache[template_name] = deps`), the metadata map with
caching on success. -/
def block_deps_for_template (g : GraphState) (template_name : String) :
    List (String × Finset String) × GraphState :=
  match g.blockMetaCache.lookup template_name with
  | some deps => (deps, g)
  | none =>
    match g.env with
    | none => ([], g)
    | some env =>
      match env.blockMetadata template_name with
      | .error _ =>
        ([], { g with blockMetaCache := (template_name, []) :: g.blockMetaCache })
      | .ok metadata =>
        (metadata, { g with blockMetaCache := (template_name, metadata) :: g.blockMetaCache })

/-- `_build_extends_map`: empty when the engine is not ready, else the
scan result. -/
def _build_extends_map (g : GraphState) : List (String × Finset String) :=
  match g.env with
  | none => []
  | some env => env.extendsChildren

/-- `templates_extending`: lazily builds `_extends_map`, then
`self._extends_map.get(template_name, set()).copy()`. -/
def templates_extending (g : GraphState) (template_name : String) :
    Finset String × GraphState :=
  match g.extendsMap with
  | some m => ((m.lookup template_name).getD ∅, g)
  | none =>
    let m := _build_extends_map g
    ((m.lookup template_name).getD ∅, { g with extendsMap := some m })

/-- `is_cascade_change`: `config` always cascades; a `template` change
cascades when some template extends it, else when the lowercased stem
contains `"base"` or `"layout"`; other categories never cascade. -/
def is_cascade_change (g : GraphState) (event : ChangeEvent) :
    Bool × GraphState :=
  if event.category = .config then (true, g)
  else if event.category = .template then
    let r := templates_extending g event.path.name
    if r.1 ≠ ∅ then (true, r.2)
    else
      let lname := (FsPath.stem event.path).data.map Char.toLower
      (strContains lname "base".data || strContains lname "layout".data, r.2)
  else (false, g)

/-! ## Update broadcaster (`src/purr/reactive/broadcaster.py`)

`self._subscribers` is a `defaultdict(set)` of permalink → set of
`SSEConnection`; connections are identified by `client_id` and the set
is modelled as a duplicate-free-by-construction list.  Subscripting a
`defaultdict` (`self._subscribers[permalink]`) creates an empty entry
when the key is absent; `unsubscribe` on an absent key therefore
creates the empty set, discards nothing, finds it falsy and deletes it
again — a net no-op, embedded as returning the list unchanged. -/

abbrev Subscribers := List (String × List String)

/-- `Broadcaster.subscribe`: `self._subscribers[permalink].add(conn)`. -/
def Broadcaster.subscribe (subs : Subscribers) (permalink : String)
    (conn : String) : Subscribers :=
  match subs with
  | [] => [(permalink, [conn])]
  | (q, conns) :: rest =>
    if q = permalink then
      (q, if conn ∈ conns then conns else conns ++ [conn]) :: rest
    else
      (q, conns) :: Broadcaster.subscribe rest permalink conn

/-- `Broadcaster.unsubscribe`: discard the connection, then delete the
page entry if its set became empty. -/
def Broadcaster.unsubscribe (subs : Subscribers) (permalink : String)
    (conn : String) : Subscribers :=
  match subs with
  | [] => []
  | (q, conns) :: rest =>
    if q = permalink then
      let remaining := conns.filter (fun c => c ≠ conn)
      if remaining.isEmpty then rest else (q, remaining) :: rest
    else
      (q, conns) :: Broadcaster.unsubscribe rest permalink conn

/-- `Broadcaster.get_subscribers`: snapshot of one page's set
(`self._subscribers.get(permalink, set())`, `.get` does not create an
entry). -/
def Broadcaster.get_subscribers (subs : Subscribers) (permalink : String) :
    List String :=
  (List.lookup permalink subs).getD []

/-- `Broadcaster.get_subscribed_pages`: the subscriber map's keys. -/
def Broadcaster.get_subscribed_pages (subs : Subscribers) : List String :=
  subs.map (fun e => e.1)

/-- The implicit map invariant: every page entry holds a non-empty
connection set. -/
def SubsInvariant (subs : Subscribers) : Prop :=
  ∀ e ∈ subs, e.2 ≠ []

instance (subs : Subscribers) : Decidable (SubsInvariant subs) := by
  unfold SubsInvariant
  infer_instance

/-! ## Pipeline coordinator (`src/purr/reactive/pipeline.py`)

The content-change handler `_handle_content_change_inner`.  External
collaborators (file reads, the Patitas parser, the markdown renderer,
Kida block recompilation, Bengal context building) are black boxes
passed in as `PipelineExternals`; fallible calls return `Option`
(`none` = the exception the Python code catches).  `Path.resolve()` is
the identity on the model's already-absolute `FsPath` values.  The
profiler and collector are observability-only (`None` in the model) and
`print` logging is omitted — neither touches the cache or the
broadcaster. -/

/-- A Bengal page as the pipeline sees it: `source_path`,
`metadata.get("template")`, `href`, `_path`, and the mutable rendered
fields `html_content` / `_raw_content`. -/
structure Page where
  source_path : Option FsPath
  template_meta : Option String
  href : Option String
  path_attr : Option String
  html_content : String
  raw_content : String
deriving DecidableEq

/-- `_resolve_template_name` (`src/purr/content/router.py`): explicit
frontmatter `template` key (when truthy), else `index.html` for
`_index.md`, else `page.html`. -/
def _resolve_template_name (page : Page) : String :=
  if page.template_meta.getD "" ≠ "" then page.template_meta.getD ""
  else
    match page.source_path with
    | some sp => if sp.name = "_index.md" then "index.html" else "page.html"
    | none => "page.html"

/-- `ReactivePipeline._get_permalink`: `page.href` when truthy, else
`page._path` with a leading slash ensured, else `None`. -/
def _get_permalink (page : Page) : Option String :=
  if page.href.getD "" ≠ "" then some (page.href.getD "")
  else if page.path_attr.getD "" ≠ "" then
    let p := page.path_attr.getD ""
    some (if "/".data.isPrefixOf p.data then p else "/" ++ p)
  else none

/-- `str.find(pat, start)`: lowest index `≥ start` where `pat` occurs in
`cs`, if any. -/
def str_find (cs pat : List Char) (start : Nat) : Option Nat :=
  (List.range (cs.length + 1)).find?
    (fun i => decide (start ≤ i) && pat.isPrefixOf (cs.drop i))

/-- `_strip_frontmatter`: drop a leading `---` ... `\n---` block and the
blank lines after it. -/
def _strip_frontmatter (source : String) : String :=
  if ¬ "---".data.isPrefixOf source.data then source
  else
    match str_find source.data "\n---".data 3 with
    | none => source
    | some endIdx =>
      ⟨(source.data.drop (endIdx + 4)).dropWhile (fun c => c = '\n')⟩

/-- `_CachedContent`: previous AST + source text per file. -/
structure CachedContent where
  doc : PDocument
  source : String
deriving DecidableEq

abbrev PageContext := List (String × String)

/-- Black-box collaborators of the content-change handler. -/
structure PipelineExternals where
  readText : FsPath → Option String
  parse : String → Option PDocument
  parseIncremental : String → PDocument → Nat → Nat → Nat → Option PDocument
  mdRender : String → String
  tryRecompileBlocks : String → Nat
  buildContext : Page → PageContext

/-- State owned by `ReactivePipeline`: the per-file content cache, the
dependency graph's caches, and the site's pages (whose rendered fields
the handler mutates in place). -/
structure PipelineState where
  contentCache : List (FsPath × CachedContent)
  graph : GraphState
  pages : List Page

/-- A message handed to the broadcaster: `push_updates(updates, ctx)`
or `push_full_refresh(permalink)`. -/
inductive PushMessage where
  | updates (us : List BlockUpdate) (ctx : PageContext)
  | fullRefresh (permalink : String)
deriving DecidableEq

/-- `_parse_content_incremental`: full parse on first sight, cached doc
when the source is unchanged, else incremental parse over the computed
edit region; any exception yields `None`. -/
def _parse_content_incremental (ext : PipelineExternals) (new_source : String)
    (cached : Option CachedContent) : Option PDocument :=
  match cached with
  | none => ext.parse new_source
  | some c =>
    if c.source = new_source then some c.doc
    else
      match _compute_edit_region c.source.data new_source.data with
      | (edit_start, edit_end, new_length) =>
        ext.parseIncremental new_source c.doc edit_start edit_end new_length

/-- The `for page in self._site.pages: ... break` loop of
`_update_page_html`: only the first page backed by `path` is updated. -/
def updateFirstMatching (mdRender : String → String) (body : String)
    (path : FsPath) : List Page → List Page
  | [] => []
  | page :: rest =>
    if page.source_path = some path then
      { page with html_content := mdRender body, raw_content := body } :: rest
    else
      page :: updateFirstMatching mdRender body path rest

/-- `_update_page_html`: re-render the body and write it back onto the
page object. -/
def _update_page_html (mdRender : String → String) (pages : List Page)
    (path : FsPath) (source : String) : List Page :=
  updateFirstMatching mdRender (_strip_frontmatter source) path pages

/-- One iteration of the handler's `for page in self._site.pages` loop.
Accumulator: graph state, `total_blocks_updated`,
`affected_permalinks`, messages pushed so far. -/
def contentPageStep (ext : PipelineExternals) (changes : List ASTChange)
    (path : FsPath)
    (acc : GraphState × Nat × List String × List PushMessage) (page : Page) :
    GraphState × Nat × List String × List PushMessage :=
  match acc with
  | (g, total, permalinks, msgs) =>
    if page.source_path ≠ some path then (g, total, permalinks, msgs)
    else
      let template_name := _resolve_template_name page
      let r := block_deps_for_template g template_name
      match _get_permalink page with
      | none => (r.2, total, permalinks, msgs)
      | some permalink =>
        let _blocks_recompiled := ext.tryRecompileBlocks template_name
        let updates := map_changes changes template_name r.1 permalink
        if updates.isEmpty then (r.2, total, permalinks ++ [permalink], msgs)
        else
          let ctx := ext.buildContext page
          (r.2, total + updates.length, permalinks ++ [permalink],
           msgs ++ [.updates updates ctx])

/-- `_handle_content_change_inner`: read → parse → cache update → eager
re-render → diff → per-page map/recompile/push → full-refresh safety
net. -/
def _handle_content_change_inner (ext : PipelineExternals)
    (st : PipelineState) (event : ChangeEvent) :
    PipelineState × List PushMessage :=
  let path := event.path
  match ext.readText path with
  | none => (st, [])
  | some new_source =>
    let cached := st.contentCache.lookup path
    match _parse_content_incremental ext new_source cached with
    | none => (st, [])
    | some new_doc =>
      let old_doc := cached.map (fun c => c.doc)
      let st1 : PipelineState :=
        { contentCache := (path, ⟨new_doc, new_source⟩) :: st.contentCache,
          graph := st.graph,
          pages := _update_page_html ext.mdRender st.pages path new_source }
      match old_doc with
      | none => (st1, [])
      | some od =>
        let changes := diff_documents od new_doc
        if changes.isEmpty then (st1, [])
        else
          match st1.pages.foldl (contentPageStep ext changes path)
              (st1.graph, 0, [], []) with
          | (g, total, permalinks, msgs) =>
            let st2 : PipelineState :=
              { contentCache := st1.contentCache, graph := g, pages := st1.pages }
            if total = 0 ∧ ¬ permalinks.isEmpty then
              (st2, msgs ++ permalinks.map PushMessage.fullRefresh)
            else
              (st2, msgs)

/-! ## Theorems -/

theorem flatMap_eq_nil_of_forall {α β : Type} (l : List α) (f : α → List β)
    (h : ∀ x ∈ l, f x = []) : l.flatMap f = [] := by
  induction l with
  | nil => rfl
  | cons a t ih =>
    simp only [List.flatMap_cons, h a (by simp)]
    simpa using ih fun x hx => h x (by simp [hx])

theorem diffAt_self (c : List PNode) (pp : List Nat) (i : Nat)
    (hi : i < c.length) : diffAt c c pp i = [] := by
  simp [diffAt, Nat.not_le.mpr hi]

theorem diff_children_self (c : List PNode) (pp : List Nat) :
    _diff_children c c pp = [] := by
  apply flatMap_eq_nil_of_forall
  intro i hi
  exact diffAt_self c pp i (by simpa using hi)

theorem diffAt_path (oldC newC : List PNode) (pp : List Nat) (i : Nat) :
    ∀ c ∈ diffAt oldC newC pp i, c.path = pp ++ [i] := by
  intro c hc
  unfold diffAt at hc
  split at hc
  · simp at hc; subst hc; rfl
  · split at hc
    · simp at hc; subst hc; rfl
    · split at hc
      · simp at hc
      · split at hc
        · simp at hc; subst hc; rfl
        · simp at hc
          rcases hc with h | h
          · subst h; rfl
          · subst h; rfl

/-- C3: the AST differ is the identity on equal trees: `diff(doc, doc)`
is empty, and diffing any two documents whose children agree position
by position (the `==` of distinct but structurally equal frozen trees)
is empty as well. -/
theorem C3_diff_identity :
    (∀ d : PDocument, diff_documents d d = []) ∧
    (∀ old new : PDocument,
      (∀ i : Nat, old.children[i]? = new.children[i]?) →
      diff_documents old new = []) := by
  constructor
  · intro d
    exact diff_children_self d.children []
  · intro old new h
    have hchildren : old.children = new.children := List.ext_getElem? h
    show _diff_children old.children new.children [] = []
    rw [hchildren]
    exact diff_children_self new.children []

/-- C3 witness: diffing two structurally equal one-paragraph documents
yields the empty changeset. -/
theorem C3_diff_identity_witness :
    diff_documents ⟨[.paragraph "Same content"]⟩ ⟨[.paragraph "Same content"]⟩ = [] :=
  C3_diff_identity.2 ⟨[.paragraph "Same content"]⟩ ⟨[.paragraph "Same content"]⟩
    fun _ => rfl

/-- C2 counterexample: a value change nested inside a `BlockQuote` (a
node type that carries nested block children) produces exactly one
`modified` change at the top-level position and *no* change at any
deeper path — the differ does not recurse into the node's children. -/
theorem C2_no_recursion_counterexample :
    diff_documents ⟨[.blockQuote [.paragraph "old text"]]⟩
        ⟨[.blockQuote [.paragraph "new text"]]⟩ =
      [⟨.modified, [0], some (.blockQuote [.paragraph "old text"]),
        some (.blockQuote [.paragraph "new text"])⟩] ∧
    ¬ ∃ c ∈ diff_documents ⟨[.blockQuote [.paragraph "old text"]]⟩
        ⟨[.blockQuote [.paragraph "new text"]]⟩, 1 < c.path.length := by
  constructor
  · decide
  · decide

/-- C2 amended: when two nodes at the same position have matching types
but differing values, the differ emits one `modified` change at that
position and never recurses — every change it produces sits at a
top-level path of length one. -/
theorem C2_modified_no_recursion (old new : PDocument) (i : Nat)
    (hio : i < old.children.length) (hin : i < new.children.length)
    (hne : old.children[i]? ≠ new.children[i]?)
    (hty : old.children[i]?.map nodeType = new.children[i]?.map nodeType) :
    (ASTChange.mk .modified [i] old.children[i]? new.children[i]? ∈
      diff_documents old new) ∧
    ∀ c ∈ diff_documents old new, c.path.length = 1 := by
  constructor
  · show _ ∈ _diff_children old.children new.children []
    rw [_diff_children, List.mem_flatMap]
    refine ⟨i, by simp [List.mem_range]; omega, ?_⟩
    simp [diffAt, Nat.not_le.mpr hio, Nat.not_le.mpr hin, hne, hty]
  · intro c hc
    rw [diff_documents, _diff_children, List.mem_flatMap] at hc
    obtain ⟨j, _, hcj⟩ := hc
    rw [diffAt_path old.children new.children [] j c hcj]
    rfl

/-- C2 amended witness: a blockquote whose nested paragraph changed. -/
theorem C2_modified_no_recursion_witness :
    (ASTChange.mk .modified [0]
        (some (.blockQuote [.paragraph "old text"]))
        (some (.blockQuote [.paragraph "new text"])) ∈
      diff_documents ⟨[.blockQuote [.paragraph "old text"]]⟩
        ⟨[.blockQuote [.paragraph "new text"]]⟩) ∧
    ∀ c ∈ diff_documents ⟨[.blockQuote [.paragraph "old text"]]⟩
        ⟨[.blockQuote [.paragraph "new text"]]⟩, c.path.length = 1 :=
  C2_modified_no_recursion ⟨[.blockQuote [.paragraph "old text"]]⟩
    ⟨[.blockQuote [.paragraph "new text"]]⟩ 0
    (by decide) (by decide) (by decide) (by decide)

theorem prefixScan_self (l : List Char) : prefixScan l l = l.length := by
  induction l with
  | nil => rfl
  | cons c t ih => simp [prefixScan, ih]

theorem prefixScan_le_left : ∀ a b : List Char, prefixScan a b ≤ a.length
  | [], _ => by simp [prefixScan]
  | _ :: _, [] => by simp [prefixScan]
  | a :: as, b :: bs => by
    by_cases h : a = b
    · simpa [prefixScan, h] using prefixScan_le_left as bs
    · simp [prefixScan, h]

theorem prefixScan_le_right : ∀ a b : List Char, prefixScan a b ≤ b.length
  | [], _ => by simp [prefixScan]
  | _ :: _, [] => by simp [prefixScan]
  | a :: as, b :: bs => by
    by_cases h : a = b
    · simpa [prefixScan, h] using prefixScan_le_right as bs
    · simp [prefixScan, h]

theorem take_prefixScan : ∀ a b : List Char,
    a.take (prefixScan a b) = b.take (prefixScan a b)
  | [], _ => by simp [prefixScan]
  | _ :: _, [] => by simp [prefixScan]
  | a :: as, b :: bs => by
    by_cases h : a = b
    · simp [prefixScan, h, take_prefixScan as bs]
    · simp [prefixScan, h]

theorem reverse_take_eq (l : List Char) (k : Nat) :
    l.reverse.take k = (l.drop (l.length - k)).reverse := by
  have h := List.reverse_take (l := l.reverse) (n := k)
  simp only [List.reverse_reverse, List.length_reverse] at h
  calc l.reverse.take k = ((l.reverse.take k).reverse).reverse := by simp
    _ = (l.drop (l.length - k)).reverse := by rw [h]

/-- The backward-scan suffix of `o` matched against `n`: dropping all
but the last `k` matched characters yields the same list on both
sides. -/
theorem editRegion_suffix_eq (o n : List Char) (s : Nat)
    (hso : s ≤ o.length) (hsn : s ≤ n.length) :
    o.drop (o.length - prefixScan (o.drop s).reverse (n.drop s).reverse) =
    n.drop (n.length - prefixScan (o.drop s).reverse (n.drop s).reverse) := by
  have hk1 : prefixScan (o.drop s).reverse (n.drop s).reverse ≤ o.length - s := by
    simpa using prefixScan_le_left (o.drop s).reverse (n.drop s).reverse
  have hk2 : prefixScan (o.drop s).reverse (n.drop s).reverse ≤ n.length - s := by
    simpa using prefixScan_le_right (o.drop s).reverse (n.drop s).reverse
  have htk := take_prefixScan (o.drop s).reverse (n.drop s).reverse
  rw [reverse_take_eq, reverse_take_eq] at htk
  have h2 := congrArg List.reverse htk
  simp only [List.reverse_reverse] at h2
  rw [List.drop_drop, List.drop_drop] at h2
  simp only [List.length_drop] at h2
  have ho : s + (o.length - s - prefixScan (o.drop s).reverse (n.drop s).reverse) =
      o.length - prefixScan (o.drop s).reverse (n.drop s).reverse := by omega
  have hn : s + (n.length - s - prefixScan (o.drop s).reverse (n.drop s).reverse) =
      n.length - prefixScan (o.drop s).reverse (n.drop s).reverse := by omega
  rw [ho, hn] at h2
  exact h2

/-- C5: `_compute_edit_region` always returns a valid contiguous
replacement description: `start ≤ end ≤ len(old)`,
`start + new_length ≤ len(new)`, and splicing
`new[start : start+new_length]` between `old[:start]` and `old[end:]`
reproduces `new` exactly. -/
theorem C5_edit_region_valid_replacement (old new : String) :
    (computeEditRegion old new).1 ≤ (computeEditRegion old new).2.1 ∧
    (computeEditRegion old new).2.1 ≤ old.length ∧
    (computeEditRegion old new).1 + (computeEditRegion old new).2.2 ≤ new.length ∧
    old.data.take (computeEditRegion old new).1 ++
        ((new.data.drop (computeEditRegion old new).1).take
          (computeEditRegion old new).2.2) ++
        old.data.drop (computeEditRegion old new).2.1 = new.data := by
  have hs1 : prefixScan old.data new.data ≤ old.data.length :=
    prefixScan_le_left old.data new.data
  have hs2 : prefixScan old.data new.data ≤ new.data.length :=
    prefixScan_le_right old.data new.data
  have hlen : old.length = old.data.length := rfl
  have hlen2 : new.length = new.data.length := rfl
  by_cases h : prefixScan old.data new.data = old.data.length ∧
      prefixScan old.data new.data = new.data.length
  · have hr : computeEditRegion old new =
        (prefixScan old.data new.data, prefixScan old.data new.data, 0) := by
      simp only [computeEditRegion, _compute_edit_region]
      rw [if_pos h]
    have hll : old.data.length = new.data.length := by
      have e1 := h.1
      have e2 := h.2
      omega
    have heq : old.data = new.data := by
      have htp := take_prefixScan old.data new.data
      rw [h.1, List.take_length, hll, List.take_length] at htp
      exact htp
    rw [hr]
    dsimp only
    refine ⟨le_refl _, by omega, by omega, ?_⟩
    simp [heq, h.2]
  · have hr : computeEditRegion old new =
        (prefixScan old.data new.data,
         old.data.length -
           prefixScan (old.data.drop (prefixScan old.data new.data)).reverse
             (new.data.drop (prefixScan old.data new.data)).reverse,
         new.data.length - prefixScan old.data new.data -
           prefixScan (old.data.drop (prefixScan old.data new.data)).reverse
             (new.data.drop (prefixScan old.data new.data)).reverse) := by
      simp only [computeEditRegion, _compute_edit_region]
      rw [if_neg h]
    have hk1 : prefixScan (old.data.drop (prefixScan old.data new.data)).reverse
        (new.data.drop (prefixScan old.data new.data)).reverse ≤
        old.data.length - prefixScan old.data new.data := by
      simpa using prefixScan_le_left
        (old.data.drop (prefixScan old.data new.data)).reverse
        (new.data.drop (prefixScan old.data new.data)).reverse
    have hk2 : prefixScan (old.data.drop (prefixScan old.data new.data)).reverse
        (new.data.drop (prefixScan old.data new.data)).reverse ≤
        new.data.length - prefixScan old.data new.data := by
      simpa using prefixScan_le_right
        (old.data.drop (prefixScan old.data new.data)).reverse
        (new.data.drop (prefixScan old.data new.data)).reverse
    rw [hr]
    dsimp only
    refine ⟨by omega, by omega, by omega, ?_⟩
    have htake : old.data.take (prefixScan old.data new.data) =
        new.data.take (prefixScan old.data new.data) :=
      take_prefixScan old.data new.data
    have hsuffix := editRegion_suffix_eq old.data new.data
      (prefixScan old.data new.data) hs1 hs2
    rw [htake, hsuffix]
    have hsplit : (new.data.drop (prefixScan old.data new.data)).drop
        (new.data.length - prefixScan old.data new.data -
          prefixScan (old.data.drop (prefixScan old.data new.data)).reverse
            (new.data.drop (prefixScan old.data new.data)).reverse) =
        new.data.drop (new.data.length -
          prefixScan (old.data.drop (prefixScan old.data new.data)).reverse
            (new.data.drop (prefixScan old.data new.data)).reverse) := by
      rw [List.drop_drop]
      congr 1
      omega
    rw [← hsplit]
    rw [List.append_assoc]
    rw [List.take_append_drop, List.take_append_drop]

theorem editRegion_self (l : List Char) :
    _compute_edit_region l l = (l.length, l.length, 0) := by
  unfold _compute_edit_region
  rw [prefixScan_self]
  rw [if_pos ⟨rfl, rfl⟩]

/-- C4: the edit-region detector reproduces the spec's example values,
and for any string diffed against itself it returns the zero-length
region `(L, L, 0)` at the shared length. -/
theorem C4_edit_region_examples :
    computeEditRegion "hello" "hello" = (5, 5, 0) ∧
    computeEditRegion "hello" "hallo" = (1, 2, 1) ∧
    computeEditRegion "abc" "xyz" = (0, 3, 3) ∧
    ∀ s : String, computeEditRegion s s = (s.length, s.length, 0) := by
  refine ⟨by decide, by decide, by decide, ?_⟩
  intro s
  exact editRegion_self s.data

theorem mem_foldl_affected (changes : List ASTChange) (acc : Finset String)
    (x : String) :
    (x ∈ changes.foldl
      (fun acc change =>
        match changeNode change with
        | some node => acc ∪ contextPathsFor (nodeType node)
        | none => acc) acc) ↔
    x ∈ acc ∨ ∃ c ∈ changes, ∃ node, changeNode c = some node ∧
      x ∈ contextPathsFor (nodeType node) := by
  induction changes generalizing acc with
  | nil => simp
  | cons c t ih =>
    simp only [List.foldl_cons]
    rw [ih]
    cases hc : changeNode c with
    | none =>
      simp only [List.mem_cons]
      constructor
      · rintro (hx | ⟨d, hd, node, hnode, hx⟩)
        · exact Or.inl hx
        · exact Or.inr ⟨d, Or.inr hd, node, hnode, hx⟩
      · rintro (hx | ⟨d, hd | hd, node, hnode, hx⟩)
        · exact Or.inl hx
        · subst hd; rw [hc] at hnode; exact absurd hnode (by simp)
        · exact Or.inr ⟨d, hd, node, hnode, hx⟩
    | some node =>
      simp only [List.mem_cons, Finset.mem_union]
      constructor
      · rintro ((hx | hx) | ⟨d, hd, m, hm, hx⟩)
        · exact Or.inl hx
        · exact Or.inr ⟨c, Or.inl rfl, node, hc, hx⟩
        · exact Or.inr ⟨d, Or.inr hd, m, hm, hx⟩
      · rintro (hx | ⟨d, hd | hd, m, hm, hx⟩)
        · exact Or.inl (Or.inl hx)
        · subst hd; rw [hc] at hm
          injection hm with hm
          subst hm
          exact Or.inl (Or.inr hx)
        · exact Or.inr ⟨d, hd, m, hm, hx⟩

theorem mem_affectedPaths (changes : List ASTChange) (x : String) :
    x ∈ affectedPaths changes ↔
    ∃ c ∈ changes, ∃ node, changeNode c = some node ∧
      x ∈ contextPathsFor (nodeType node) := by
  unfold affectedPaths
  rw [mem_foldl_affected]
  simp

theorem affectedPaths_subset (A B : List ASTChange) (h : ∀ c ∈ A, c ∈ B) :
    affectedPaths A ⊆ affectedPaths B := by
  intro x hx
  rw [mem_affectedPaths] at hx ⊢
  obtain ⟨c, hc, node, hnode, hx⟩ := hx
  exact ⟨c, h c hc, node, hnode, hx⟩

/-- C6: mapper monotonicity — if every change of `A` also occurs in
`B`, every block name affected by `map_changes` on `A` is affected on
`B`: adding changes never removes an affected block. -/
theorem C6_mapper_monotonic (A B : List ASTChange) (template_name : String)
    (block_metadata : List (String × Finset String)) (permalink : String)
    (hsub : ∀ c ∈ A, c ∈ B) (bn : String)
    (hbn : bn ∈ (map_changes A template_name block_metadata permalink).map
      BlockUpdate.block_name) :
    bn ∈ (map_changes B template_name block_metadata permalink).map
      BlockUpdate.block_name := by
  cases A with
  | nil => simp [map_changes] at hbn
  | cons a A0 =>
    have hBne : B.isEmpty = false := by
      have := hsub a (by simp)
      cases B with
      | nil => simp at this
      | cons b B0 => rfl
    rw [map_changes] at hbn
    simp only [List.isEmpty_cons, Bool.false_eq_true, if_false] at hbn
    by_cases hA : affectedPaths (a :: A0) = ∅
    · rw [if_pos hA] at hbn
      simp at hbn
    · rw [if_neg hA] at hbn
      have hAB : affectedPaths (a :: A0) ⊆ affectedPaths B :=
        affectedPaths_subset (a :: A0) B hsub
      have hB : affectedPaths B ≠ ∅ := by
        intro he
        rw [he, Finset.subset_empty] at hAB
        exact hA hAB
      simp only [List.mem_map] at hbn
      obtain ⟨u, hu, hbn⟩ := hbn
      simp only [List.mem_filterMap] at hu
      obtain ⟨e, he, hfe⟩ := hu
      by_cases hov : e.2 ∩ affectedPaths (a :: A0) ≠ ∅
      · rw [if_pos hov] at hfe
        injection hfe with hfe
        subst hfe
        obtain ⟨x, hx⟩ := Finset.nonempty_iff_ne_empty.mpr hov
        have hxB : x ∈ e.2 ∩ affectedPaths B := by
          rw [Finset.mem_inter] at hx ⊢
          exact ⟨hx.1, hAB hx.2⟩
        rw [map_changes, hBne]
        simp only [Bool.false_eq_true, if_false]
        rw [if_neg hB]
        simp only [List.mem_map, List.mem_filterMap]
        refine ⟨⟨permalink, template_name, e.1, e.2 ∩ affectedPaths B⟩,
          ⟨e, he, ?_⟩, hbn⟩
        rw [if_pos (Finset.ne_empty_of_mem hxB)]
      · rw [if_neg hov] at hfe
        exact absurd hfe (by simp)

/-- C6 witness: a one-change set against a two-change superset. -/
theorem C6_mapper_monotonic_witness :
    "main" ∈ (map_changes
      [⟨.modified, [0], some (.paragraph "a"), some (.paragraph "b")⟩,
       ⟨.added, [1], none, some (.heading 1 "t")⟩]
      "page.html" [("main", {"content"}), ("nav", {"site"})] "/p/").map
      BlockUpdate.block_name :=
  C6_mapper_monotonic
    [⟨.modified, [0], some (.paragraph "a"), some (.paragraph "b")⟩]
    [⟨.modified, [0], some (.paragraph "a"), some (.paragraph "b")⟩,
     ⟨.added, [1], none, some (.heading 1 "t")⟩]
    "page.html" [("main", {"content"}), ("nav", {"site"})] "/p/"
    (by intro c hc; simp at hc; simp [hc]) "main" (by decide)

/-- C7: every entry of the static node-type table resolves to a subset
of the fallback context-path set, and a node type absent from the table
resolves (in the resolution step `map_changes` applies per change) to
exactly the fallback set. -/
theorem C7_fallback_conservative :
    (∀ e ∈ CONTENT_CONTEXT_MAP, e.2 ⊆ FALLBACK_CONTEXT_PATHS) ∧
    (∀ ty : String, CONTENT_CONTEXT_MAP.lookup ty = none →
      contextPathsFor ty = FALLBACK_CONTEXT_PATHS) := by
  constructor
  · decide
  · intro ty h
    unfold contextPathsFor
    rw [h]

/-- C7 witness: the node type `Unknown` is absent from the table and
resolves to the fallback set. -/
theorem C7_fallback_conservative_witness :
    contextPathsFor "Unknown" = FALLBACK_CONTEXT_PATHS :=
  C7_fallback_conservative.2 "Unknown" (by decide)

/-- C1 counterexample: with the engine ready but the per-template
analysis raising, `block_deps_for_template` returns the empty map *and
caches it* — the block-metadata cache does hold an (empty) entry for
the template after the failed call, so the next call does not re-query
the engine. -/
theorem C1_failure_cached_counterexample :
    (block_deps_for_template
      ⟨some ⟨fun _ => Except.error (), []⟩, [], none⟩ "page.html").1 = [] ∧
    (block_deps_for_template
      ⟨some ⟨fun _ => Except.error (), []⟩, [], none⟩
        "page.html").2.blockMetaCache.lookup "page.html" = some [] := by
  exact ⟨rfl, rfl⟩

/-- C1 amended: on a cache miss, only the engine-not-ready condition
(`kida_env is None`) returns an empty map without touching the cache;
an engine failure (any exception, including template-not-found) returns
an empty map that *is* cached under the template name. -/
theorem C1_block_deps_caching_amended (g : GraphState) (name : String)
    (hmiss : g.blockMetaCache.lookup name = none) :
    (g.env = none → block_deps_for_template g name = ([], g)) ∧
    (∀ env, g.env = some env → ∀ u : Unit,
      env.blockMetadata name = Except.error u →
      (block_deps_for_template g name).1 = [] ∧
      (block_deps_for_template g name).2.blockMetaCache.lookup name =
        some []) := by
  constructor
  · intro he
    simp [block_deps_for_template, hmiss, he]
  · intro env he u herr
    constructor
    · simp [block_deps_for_template, hmiss, he, herr]
    · simp [block_deps_for_template, hmiss, he, herr, List.lookup]

/-- C1 amended witness: with no engine (pre-freeze), the call returns
an empty map and leaves the graph state untouched. -/
theorem C1_block_deps_caching_amended_witness :
    block_deps_for_template ⟨none, [], none⟩ "page.html" =
      ([], ⟨none, [], none⟩) :=
  (C1_block_deps_caching_amended ⟨none, [], none⟩ "page.html" rfl).1 rfl

theorem strContains_iff : ∀ hay pat : List Char,
    strContains hay pat = true ↔ pat <:+: hay
  | [], pat => by
    rw [strContains]
    constructor
    · intro h
      rw [List.isEmpty_iff] at h
      simp [h]
    · intro h
      rw [List.isEmpty_iff]
      exact List.sublist_nil.mp h.sublist
  | c :: t, pat => by
    rw [strContains, Bool.or_eq_true, List.isPrefixOf_iff_prefix,
      strContains_iff t pat, List.infix_cons_iff]

/-- C8: `is_cascade_change` is true on every `config` event; on a
`template` event it is true whenever some template extends the changed
one, and with no extending templates it is true exactly when the
lowercased file stem contains `"base"` or `"layout"` as a substring. -/
theorem C8_cascade_detection (g : GraphState) (e : ChangeEvent) :
    (e.category = .config → (is_cascade_change g e).1 = true) ∧
    (e.category = .template →
      ((templates_extending g e.path.name).1 ≠ ∅ →
        (is_cascade_change g e).1 = true) ∧
      ((templates_extending g e.path.name).1 = ∅ →
        ((is_cascade_change g e).1 = true ↔
          ("base".data <:+: (FsPath.stem e.path).data.map Char.toLower ∨
           "layout".data <:+: (FsPath.stem e.path).data.map Char.toLower)))) := by
  by_cases hc : e.category = .config
  · refine ⟨fun _ => by simp [is_cascade_change, hc], fun ht => ?_⟩
    rw [hc] at ht
    exact absurd ht (by simp)
  · refine ⟨fun h => absurd h hc, fun ht => ⟨fun hne => ?_, fun hemp => ?_⟩⟩
    · simp [is_cascade_change, hc, ht, hne]
    · rw [is_cascade_change]
      rw [if_neg hc, if_pos ht]
      dsimp only
      rw [if_neg (by simpa using hemp)]
      rw [Bool.or_eq_true, strContains_iff, strContains_iff]

/-- C8 witness: a config event always cascades. -/
theorem C8_cascade_detection_witness :
    (is_cascade_change ⟨none, [], none⟩
      ⟨⟨"", "purr.toml"⟩, .modified, .config⟩).1 = true :=
  (C8_cascade_detection ⟨none, [], none⟩
    ⟨⟨"", "purr.toml"⟩, .modified, .config⟩).1 rfl

/-- C9: read/parse failure atomicity — when reading the changed file
fails, or parsing the new source (incrementally or fully) fails, the
content-change handler leaves the per-file content cache exactly as it
was and pushes no block updates and no full-refresh messages. -/
theorem C9_read_parse_failure_atomic (ext : PipelineExternals)
    (st : PipelineState) (event : ChangeEvent)
    (h : ext.readText event.path = none ∨
      ∃ s, ext.readText event.path = some s ∧
        _parse_content_incremental ext s
          (st.contentCache.lookup event.path) = none) :
    (_handle_content_change_inner ext st event).1.contentCache =
      st.contentCache ∧
    (_handle_content_change_inner ext st event).2 = [] := by
  rcases h with h | ⟨s, hr, hp⟩
  · simp [_handle_content_change_inner, h]
  · simp [_handle_content_change_inner, hr, hp]

/-- C9 witness: an unreadable file leaves an empty pipeline state empty
and pushes nothing. -/
theorem C9_read_parse_failure_atomic_witness :
    (_handle_content_change_inner
      ⟨fun _ => none, fun _ => none, fun _ _ _ _ _ => none, id,
       fun _ => 0, fun _ => []⟩
      ⟨[], ⟨none, [], none⟩, []⟩
      ⟨⟨"content", "page.md"⟩, .modified, .content⟩).1.contentCache = [] ∧
    (_handle_content_change_inner
      ⟨fun _ => none, fun _ => none, fun _ _ _ _ _ => none, id,
       fun _ => 0, fun _ => []⟩
      ⟨[], ⟨none, [], none⟩, []⟩
      ⟨⟨"content", "page.md"⟩, .modified, .content⟩).2 = [] :=
  C9_read_parse_failure_atomic _ _ _ (Or.inl rfl)

theorem subscribe_invariant : ∀ (subs : Subscribers) (p c : String),
    SubsInvariant subs → SubsInvariant (Broadcaster.subscribe subs p c)
  | [], p, c => by
    intro _ e he
    rw [Broadcaster.subscribe] at he
    simp at he
    simp [he]
  | (q, conns) :: rest, p, c => by
    intro hinv e he
    rw [Broadcaster.subscribe] at he
    by_cases hq : q = p
    · rw [if_pos hq] at he
      rcases List.mem_cons.mp he with h | h
      · subst h
        by_cases hmem : c ∈ conns
        · simpa [hmem] using hinv (q, conns) (by simp)
        · simp [hmem]
      · exact hinv e (by simp [h])
    · rw [if_neg hq] at he
      rcases List.mem_cons.mp he with h | h
      · subst h
        exact hinv (q, conns) (by simp)
      · exact subscribe_invariant rest p c
          (fun d hd => hinv d (by simp [hd])) e h

theorem unsubscribe_invariant : ∀ (subs : Subscribers) (p c : String),
    SubsInvariant subs → SubsInvariant (Broadcaster.unsubscribe subs p c)
  | [], _, _ => by
    intro _ e he
    rw [Broadcaster.unsubscribe] at he
    simp at he
  | (q, conns) :: rest, p, c => by
    intro hinv e he
    rw [Broadcaster.unsubscribe] at he
    by_cases hq : q = p
    · rw [if_pos hq] at he
      by_cases hrem : (conns.filter (fun x => x ≠ c)).isEmpty
      · rw [if_pos hrem] at he
        exact hinv e (by simp [he])
      · rw [if_neg hrem] at he
        rcases List.mem_cons.mp he with h | h
        · subst h
          simpa [List.isEmpty_iff] using hrem
        · exact hinv e (by simp [h])
    · rw [if_neg hq] at he
      rcases List.mem_cons.mp he with h | h
      · subst h
        exact hinv (q, conns) (by simp)
      · exact unsubscribe_invariant rest p c
          (fun d hd => hinv d (by simp [hd])) e h

theorem subscribed_pages_iff : ∀ subs : Subscribers, SubsInvariant subs →
    ∀ q : String, q ∈ Broadcaster.get_subscribed_pages subs ↔
      Broadcaster.get_subscribers subs q ≠ []
  | [], _ => by
    intro q
    simp [Broadcaster.get_subscribed_pages, Broadcaster.get_subscribers]
  | (k, l) :: rest, hinv => by
    intro q
    by_cases hq : q = k
    · subst hq
      have hne : l ≠ [] := hinv (q, l) (by simp)
      simp [Broadcaster.get_subscribed_pages, Broadcaster.get_subscribers,
        List.lookup, hne]
    · have hbeq : (q == k) = false := by
        simp [hq]
      simp only [Broadcaster.get_subscribed_pages, Broadcaster.get_subscribers,
        List.map_cons, List.mem_cons, List.lookup]
      rw [hbeq]
      have ih := subscribed_pages_iff rest
        (fun d hd => hinv d (by simp [hd])) q
      simp only [Broadcaster.get_subscribed_pages,
        Broadcaster.get_subscribers] at ih
      simp [hq, ih]

/-- C10: the broadcaster's implicit page invariant — every page entry
holds a non-empty connection set, `subscribe` and `unsubscribe` both
preserve it, and under it `get_subscribed_pages` returns exactly the
pages with at least one subscriber. -/
theorem C10_broadcaster_page_invariant (subs : Subscribers) (p c : String)
    (hinv : SubsInvariant subs) :
    SubsInvariant (Broadcaster.subscribe subs p c) ∧
    SubsInvariant (Broadcaster.unsubscribe subs p c) ∧
    (∀ q : String, q ∈ Broadcaster.get_subscribed_pages subs ↔
      Broadcaster.get_subscribers subs q ≠ []) :=
  ⟨subscribe_invariant subs p c hinv,
   unsubscribe_invariant subs p c hinv,
   subscribed_pages_iff subs hinv⟩

/-- C10 witness: unsubscribing the last subscriber of a page removes
its entry; the invariant and the page query hold on a concrete map. -/
theorem C10_broadcaster_page_invariant_witness :
    SubsInvariant (Broadcaster.subscribe [("/a/", ["c1"])] "/b/" "c2") ∧
    SubsInvariant (Broadcaster.unsubscribe [("/a/", ["c1"])] "/b/" "c2") ∧
    (∀ q : String, q ∈ Broadcaster.get_subscribed_pages [("/a/", ["c1"])] ↔
      Broadcaster.get_subscribers [("/a/", ["c1"])] q ≠ []) :=
  C10_broadcaster_page_invariant [("/a/", ["c1"])] "/b/" "c2" (by decide)

end Purr
